import Mathlib

/-!
Verification of the feature-space core of `taggerflow` (`features.py`).

The file shallowly embeds the source's data model and operations:

* `mkFeatureSpace` embeds `FeatureSpace.__init__` (counting, minimum-count
  filtering, optional fallback slot).  Subclass `extract` generators are
  embedded by passing the extracted feature list directly; `supertagExtract`
  embeds `SupertagSpace.extract`.
* `cindex`, `CountedSpace.feature`, `CountedSpace.size` embed `index`,
  `feature`, `size`.  Python's `defaultdict` lookup is translated as an
  explicit total function with the default wired in; Python's list indexing
  (which accepts negative indices) is translated as `pyGet`.
* `loadPretrained` embeds `PretrainedEmbeddingSpace.__init__` line by line;
  fatal `ValueError`/`IndexError` outcomes become the `LoadError` type.
  Embedding-vector fields are kept as the raw whitespace-split strings: the
  claims only inspect vector lengths and which line's vector is recorded, and
  `float(s)` preserves the number of fields.
* `prefixExtract` / `suffixExtract` embed `PrefixSpace.extract_from_token`
  and `SuffixSpace.extract_from_token`; `pySliceFromNeg` translates Python's
  `token[-n:]` including its `n = 0` behavior.
-/

/-- `UNKNOWN_MARKER = "*UNKNOWN*"` from `features.py`. -/
def UNKNOWN_MARKER : String := "*UNKNOWN*"

/-- `OUT_OF_RANGE_MARKER = "*OOR*"` from `features.py`. -/
def OUT_OF_RANGE_MARKER : String := "*OOR*"

/-- Python list indexing `l[i]`: a nonnegative index must be `< len`, a
negative index `i` addresses `l[len + i]` and must satisfy `-len ≤ i`;
anything else raises `IndexError`, modelled as `none`. -/
def pyGet (l : List String) (i : Int) : Option String :=
  if 0 ≤ i then l.get? i.toNat
  else if (-i).toNat ≤ l.length then l.get? (l.length - (-i).toNat)
  else none

/-- Index of the first occurrence of `y` in `l` (the value of
`{f:i for i,f in enumerate(l)}[y]` when `l` has no duplicates, which holds
for every `space`/`ispace` the source builds). -/
def idxOf : List String → String → Nat
  | [], _ => 0
  | x :: xs, y => if x = y then 0 else idxOf xs y + 1

/-- First-occurrence deduplication: iteration order of
`collections.Counter(features)` keeps the first occurrence of each distinct
value. -/
def dedupFirst : List String → List String
  | [] => []
  | x :: xs => x :: (dedupFirst xs).filter (fun y => y ≠ x)

/-- The retention test `min_count is None or counts[f] >= min_count`. -/
def keepMinCount (min_count : Option Nat) (c : Nat) : Bool :=
  match min_count with
  | none => true
  | some m => m ≤ c

/-- State of a constructed `FeatureSpace`: `space` is `self.space` after the
optional `append`, `retained` is the key list of `self.ispace` (the space
before the append), `default_index` is `self.default_index`. -/
structure CountedSpace where
  space : List String
  retained : List String
  default_index : Int
  deriving Repr, DecidableEq

/-- `FeatureSpace.__init__(sentences, min_count, append_unknown)`, with the
subclass `extract` generator's output passed as the list `feats`. -/
def mkFeatureSpace (feats : List String) (min_count : Option Nat)
    (append_unknown : Bool) : CountedSpace :=
  let retained := (dedupFirst feats).filter
    (fun f => keepMinCount min_count (feats.count f))
  { space := if append_unknown then retained ++ [UNKNOWN_MARKER] else retained
    retained := retained
    default_index := if append_unknown then (retained.length : Int) else -1 }

/-- `FeatureSpace.index`: `self.ispace[f]`, a `defaultdict` returning
`self.default_index` for absent keys — total, never raises. -/
def cindex (sp : CountedSpace) (f : String) : Int :=
  if f ∈ sp.retained then (idxOf sp.retained f : Int) else sp.default_index

/-- `FeatureSpace.feature`: `self.space[i]` with Python list semantics. -/
def CountedSpace.feature (sp : CountedSpace) (i : Int) : Option String :=
  pyGet sp.space i

/-- `FeatureSpace.size`: `len(self.space)`. -/
def CountedSpace.size (sp : CountedSpace) : Nat :=
  sp.space.length

/-- `SupertagSpace.extract`: yields each non-`None` supertag of each
sentence, in order. -/
def supertagExtract (sentences : List (List String × List (Option String))) :
    List String :=
  sentences.flatMap (fun s => s.2.filterMap id)

/-- `SupertagSpace.__init__`: a counted space over the extracted supertags
with `append_unknown=False`. -/
def mkSupertagSpace (sentences : List (List String × List (Option String)))
    (min_count : Option Nat) : CountedSpace :=
  mkFeatureSpace (supertagExtract sentences) min_count false

/-- Per-character lower-casing, the effect of Python's `str.lower()` on the
ASCII data these spaces hold. -/
def pyLower (s : String) : String :=
  String.mk (s.data.map Char.toLower)

/-- The fatal outcomes of `PretrainedEmbeddingSpace.__init__`:
`formatViolation` is the `ValueError` for a first word that is not the
unknown marker, `dimensionMismatch` the `ValueError` for an embedding whose
length differs from the first one seen, `emptyLine` the `IndexError` of
`splits[0]` on a line with no fields. -/
inductive LoadError where
  | formatViolation
  | dimensionMismatch
  | emptyLine
  deriving Repr, DecidableEq

/-- The loop state of `PretrainedEmbeddingSpace.__init__`: the
`already_added` set (as the list of members), `self.embedding_size`,
`self.space` and `self.embeddings` built so far. -/
structure LoadState where
  alreadyAdded : List String
  embedding_size : Option Nat
  space : List String
  embeddings : List (List String)
  deriving Repr, DecidableEq

/-- The empty state before the loop (`already_added = set()`,
`embedding_size = None`, `space = []`, `embeddings = []`). -/
def initLoadState : LoadState :=
  ⟨[], none, [], []⟩

/-- One iteration of the loader loop on a whitespace-split line.  `first` is
`i == 0`.  Order follows the source: `splits[0]` (raising on an empty line),
the first-line marker check, lower-casing, the `already_added` skip, then the
dimensionality check before recording the entry. -/
def processLine (first : Bool) (st : LoadState) (line : List String) :
    Except LoadError LoadState :=
  match line with
  | [] => Except.error LoadError.emptyLine
  | word :: rest =>
    if first ∧ word ≠ UNKNOWN_MARKER then
      Except.error LoadError.formatViolation
    else
      let w := pyLower word
      if w ∈ st.alreadyAdded then Except.ok st
      else
        match st.embedding_size with
        | none =>
          Except.ok ⟨w :: st.alreadyAdded, some rest.length,
            st.space ++ [w], st.embeddings ++ [rest]⟩
        | some d =>
          if d = rest.length then
            Except.ok ⟨w :: st.alreadyAdded, some d,
              st.space ++ [w], st.embeddings ++ [rest]⟩
          else Except.error LoadError.dimensionMismatch

/-- The loader loop over all lines after the first. -/
def loadLinesAux : List (List String) → LoadState → Except LoadError LoadState
  | [], st => Except.ok st
  | l :: ls, st =>
    match processLine false st l with
    | Except.error e => Except.error e
    | Except.ok st' => loadLinesAux ls st'

/-- The whole loop of `PretrainedEmbeddingSpace.__init__` over the
whitespace-split lines of the file, the first line flagged as such. -/
def loadRaw : List (List String) → Except LoadError LoadState
  | [] => Except.ok initLoadState
  | l :: ls =>
    match processLine true initLoadState l with
    | Except.error e => Except.error e
    | Except.ok st => loadLinesAux ls st

/-- A constructed `PretrainedEmbeddingSpace`: `space`, parallel `embeddings`
(each vector as its raw string fields) and `embedding_size`. -/
structure PretrainedSpace where
  space : List String
  embeddings : List (List String)
  embedding_size : Option Nat
  deriving Repr, DecidableEq

/-- `PretrainedEmbeddingSpace.__init__` on the split lines of a file. -/
def loadPretrained (lines : List (List String)) :
    Except LoadError PretrainedSpace :=
  match loadRaw lines with
  | Except.error e => Except.error e
  | Except.ok st => Except.ok ⟨st.space, st.embeddings, st.embedding_size⟩

/-- Invariant of the loader loop: `already_added` holds exactly the words
recorded in `space`. -/
def AddedInv (st : LoadState) : Prop :=
  ∀ w, w ∈ st.alreadyAdded ↔ w ∈ st.space

/-- Invariant of the loader loop: `embedding_size` is set as soon as a vector
is recorded, and every recorded vector has that length. -/
def DimInv (st : LoadState) : Prop :=
  (st.embedding_size = none → st.embeddings = [])
    ∧ ∀ e ∈ st.embeddings, st.embedding_size = some e.length

/-- `PretrainedEmbeddingSpace`'s `index`: `self.ispace[f]` where `ispace` is
a `defaultdict` mapping each stored word to its position and every absent key
to `0`.  The stored words are pairwise distinct (the `already_added` guard),
so the first-occurrence index is the dict-comprehension index. -/
def pindex (sp : PretrainedSpace) (f : String) : Int :=
  if f ∈ sp.space then (idxOf sp.space f : Int) else 0

/-- `feature` on a pretrained space: `self.space[i]`. -/
def PretrainedSpace.feature (sp : PretrainedSpace) (i : Int) : Option String :=
  pyGet sp.space i

/-- `size` on a pretrained space: `len(self.space)`. -/
def PretrainedSpace.size (sp : PretrainedSpace) : Nat :=
  sp.space.length

/-- Modelled from the spec: the sentence boundary markers
`ccgbank.START_MARKER` and `ccgbank.END_MARKER` live in the external
`ccgbank` collaborator, which is not part of this repository's sources; the
spec only fixes that they are two designated sentinel token values. -/
def START_MARKER : String := "<s>"

/-- Modelled from the spec: the end-of-sentence boundary marker supplied by
the external `ccgbank` collaborator (see `START_MARKER`). -/
def END_MARKER : String := "</s>"

/-- Python's `s[:n]` for `n ≥ 0`: the first `min n (len s)` characters. -/
def pySliceTo (s : String) (n : Nat) : String :=
  String.mk (s.data.take n)

/-- Python's `s[-n:]` for `n ≥ 0`: the last `n` characters when
`1 ≤ n ≤ len s`; for `n = 0` the index `-0` is `0`, so the slice is the
whole string. -/
def pySliceFromNeg (s : String) (n : Nat) : String :=
  if n = 0 then s else String.mk (s.data.drop (s.data.length - n))

/-- `PrefixSpace.extract_from_token` with affix length `n`. -/
def prefixExtract (n : Nat) (token : String) : String :=
  if token = START_MARKER ∨ token = END_MARKER then token
  else if n ≤ token.data.length then pySliceTo token n
  else OUT_OF_RANGE_MARKER

/-- `SuffixSpace.extract_from_token` with affix length `n`. -/
def suffixExtract (n : Nat) (token : String) : String :=
  if token = START_MARKER ∨ token = END_MARKER then token
  else if n ≤ token.data.length then pySliceFromNeg token n
  else OUT_OF_RANGE_MARKER

/-! ### Helper lemmas about `idxOf`, `dedupFirst`, `pyGet` -/

theorem idxOf_lt_length {l : List String} {y : String} (h : y ∈ l) :
    idxOf l y < l.length := by
  induction l with
  | nil => cases h
  | cons x xs ih =>
    rcases List.mem_cons.mp h with h1 | h1
    · subst h1
      simp [idxOf]
    · by_cases hx : x = y
      · simp [idxOf, hx]
      · simp only [idxOf, if_neg hx, List.length_cons]
        exact Nat.succ_lt_succ (ih h1)

theorem get?_idxOf {l : List String} {y : String} (h : y ∈ l) :
    l.get? (idxOf l y) = some y := by
  induction l with
  | nil => cases h
  | cons x xs ih =>
    by_cases hx : x = y
    · simp [idxOf, hx]
    · rcases List.mem_cons.mp h with h1 | h1
      · exact absurd h1.symm hx
      · simp only [idxOf, if_neg hx]
        simpa using ih h1

theorem mem_dedupFirst {x : String} : ∀ {l : List String},
    x ∈ dedupFirst l ↔ x ∈ l := by
  intro l
  induction l with
  | nil => simp [dedupFirst]
  | cons y ys ih =>
    simp only [dedupFirst, List.mem_cons, List.mem_filter, ih,
      decide_eq_true_eq]
    constructor
    · rintro (h | h)
      · exact Or.inl h
      · exact Or.inr h.1
    · rintro (h | h)
      · exact Or.inl h
      · by_cases hxy : x = y
        · exact Or.inl hxy
        · exact Or.inr ⟨h, hxy⟩

theorem pyGet_natCast (l : List String) (n : Nat) :
    pyGet l (n : Int) = l.get? n := by
  simp [pyGet]

theorem pyGet_neg (l : List String) {i : Int}
    (h1 : -(l.length : Int) ≤ i) (h2 : i < 0) :
    pyGet l i = l.get? ((l.length : Int) + i).toNat := by
  have h0 : ¬ (0 ≤ i) := by omega
  have hle : (-i).toNat ≤ l.length := by omega
  have heq : l.length - (-i).toNat = ((l.length : Int) + i).toNat := by omega
  rw [pyGet, if_neg h0, if_pos hle, heq]

theorem pyGet_eq_none_iff (l : List String) (i : Int) :
    pyGet l i = none ↔ (i < -(l.length : Int) ∨ (l.length : Int) ≤ i) := by
  by_cases h0 : 0 ≤ i
  · rw [pyGet, if_pos h0, List.get?_eq_none]
    omega
  · by_cases h1 : (-i).toNat ≤ l.length
    · rw [pyGet, if_neg h0, if_pos h1, List.get?_eq_none]
      omega
    · rw [pyGet, if_neg h0, if_neg h1]
      simp only [true_iff]
      omega

/-! ### Helper lemmas about constructed counted spaces -/

theorem keepMinCount_iff (mc : Option Nat) (c : Nat) :
    keepMinCount mc c = true ↔ ∀ m, mc = some m → m ≤ c := by
  cases mc with
  | none => simp [keepMinCount]
  | some m => simp [keepMinCount]

theorem mem_retained (feats : List String) (mc : Option Nat) (au : Bool)
    (v : String) :
    v ∈ (mkFeatureSpace feats mc au).retained ↔
      (v ∈ feats ∧ ∀ m, mc = some m → m ≤ feats.count v) := by
  simp only [mkFeatureSpace, List.mem_filter, mem_dedupFirst, keepMinCount_iff]

theorem space_of_append_true (feats : List String) (mc : Option Nat) :
    (mkFeatureSpace feats mc true).space
      = (mkFeatureSpace feats mc true).retained ++ [UNKNOWN_MARKER] :=
  rfl

theorem space_of_append_false (feats : List String) (mc : Option Nat) :
    (mkFeatureSpace feats mc false).space
      = (mkFeatureSpace feats mc false).retained :=
  rfl

theorem default_of_append_true (feats : List String) (mc : Option Nat) :
    (mkFeatureSpace feats mc true).default_index
      = ((mkFeatureSpace feats mc true).retained.length : Int) :=
  rfl

theorem default_of_append_false (feats : List String) (mc : Option Nat) :
    (mkFeatureSpace feats mc false).default_index = -1 :=
  rfl

theorem cindex_of_mem {sp : CountedSpace} {v : String} (h : v ∈ sp.retained) :
    cindex sp v = (idxOf sp.retained v : Int) := by
  rw [cindex, if_pos h]

theorem cindex_of_not_mem {sp : CountedSpace} {v : String}
    (h : v ∉ sp.retained) : cindex sp v = sp.default_index := by
  rw [cindex, if_neg h]

theorem feature_cindex_of_mem_true {feats : List String} {mc : Option Nat}
    {v : String} (h : v ∈ (mkFeatureSpace feats mc true).retained) :
    (mkFeatureSpace feats mc true).feature
      (cindex (mkFeatureSpace feats mc true) v) = some v := by
  rw [cindex_of_mem h, CountedSpace.feature, pyGet_natCast,
    space_of_append_true, List.get?_eq_getElem?,
    List.getElem?_append_left (idxOf_lt_length h), ← List.get?_eq_getElem?]
  exact get?_idxOf h

theorem pyGet_neg_one (l : List String) :
    pyGet l (-1) = l.getLast? := by
  cases l with
  | nil => rfl
  | cons x xs =>
    have h1 : -(((x :: xs).length : Int)) ≤ -1 := by
      simp only [List.length_cons]
      omega
    rw [pyGet_neg _ h1 (by omega), List.get?_eq_getElem?, List.getLast?_eq_getElem?]
    congr 1
    simp only [List.length_cons]
    omega

/-! ### Helper lemmas about the pretrained loader -/

theorem loadLinesAux_append (as bs : List (List String)) (st : LoadState) :
    loadLinesAux (as ++ bs) st =
      match loadLinesAux as st with
      | Except.error e => Except.error e
      | Except.ok st1 => loadLinesAux bs st1 := by
  induction as generalizing st with
  | nil => rfl
  | cons l ls ih =>
    simp only [List.cons_append, loadLinesAux]
    cases processLine false st l with
    | error e => rfl
    | ok st1 => exact ih st1

theorem processLine_false_ne_formatViolation (st : LoadState)
    (line : List String) :
    processLine false st line ≠ Except.error LoadError.formatViolation := by
  cases line with
  | nil => simp [processLine]
  | cons word rest =>
    simp only [processLine, Bool.false_eq_true, false_and, if_false]
    by_cases hmem : pyLower word ∈ st.alreadyAdded
    · simp [hmem]
    · cases hsz : st.embedding_size with
      | none => simp [hmem, hsz]
      | some d =>
        by_cases hd : d = rest.length
        · simp [hmem, hsz, hd]
        · simp [hmem, hsz, hd]

theorem loadLinesAux_ne_formatViolation (ls : List (List String))
    (st : LoadState) :
    loadLinesAux ls st ≠ Except.error LoadError.formatViolation := by
  induction ls generalizing st with
  | nil => simp [loadLinesAux]
  | cons l ls ih =>
    simp only [loadLinesAux]
    cases hp : processLine false st l with
    | error e =>
      intro hcontra
      apply processLine_false_ne_formatViolation st l
      rw [hp]
      exact hcontra
    | ok st1 => exact ih st1

theorem processLine_skip {st : LoadState} {w : String} (v : List String)
    (hmem : pyLower w ∈ st.alreadyAdded) :
    processLine false st (w :: v) = Except.ok st := by
  simp [processLine, hmem]

theorem processLine_addedInv {first : Bool} {st st1 : LoadState}
    {line : List String}
    (h : processLine first st line = Except.ok st1) (hinv : AddedInv st) :
    AddedInv st1 := by
  cases line with
  | nil => simp [processLine] at h
  | cons word rest =>
    by_cases hfw : (first = true) ∧ word ≠ UNKNOWN_MARKER
    · rw [processLine, if_pos hfw] at h
      cases h
    · rw [processLine, if_neg hfw] at h
      by_cases hmem : pyLower word ∈ st.alreadyAdded
      · rw [if_pos hmem] at h
        cases h
        exact hinv
      · rw [if_neg hmem] at h
        cases hsz : st.embedding_size with
        | none =>
          rw [hsz] at h
          cases h
          intro u
          simp only [List.mem_cons, List.mem_append, List.mem_singleton, hinv u]
          tauto
        | some d =>
          rw [hsz] at h
          dsimp only at h
          by_cases hd : d = rest.length
          · rw [if_pos hd] at h
            cases h
            intro u
            simp only [List.mem_cons, List.mem_append, List.mem_singleton,
              hinv u]
            tauto
          · rw [if_neg hd] at h
            cases h

theorem loadLinesAux_addedInv {ls : List (List String)} {st st1 : LoadState}
    (h : loadLinesAux ls st = Except.ok st1) (hinv : AddedInv st) :
    AddedInv st1 := by
  induction ls generalizing st with
  | nil =>
    simp only [loadLinesAux] at h
    cases h
    exact hinv
  | cons l ls ih =>
    simp only [loadLinesAux] at h
    cases hp : processLine false st l with
    | error e =>
      rw [hp] at h
      cases h
    | ok st2 =>
      rw [hp] at h
      exact ih h (processLine_addedInv hp hinv)

theorem loadRaw_addedInv {ls : List (List String)} {st : LoadState}
    (h : loadRaw ls = Except.ok st) : AddedInv st := by
  cases ls with
  | nil =>
    simp only [loadRaw] at h
    cases h
    intro u
    simp [initLoadState]
  | cons l ls =>
    simp only [loadRaw] at h
    cases hp : processLine true initLoadState l with
    | error e =>
      rw [hp] at h
      cases h
    | ok st0 =>
      rw [hp] at h
      have hinit : AddedInv initLoadState := by
        intro u
        simp [initLoadState]
      exact loadLinesAux_addedInv h (processLine_addedInv hp hinit)

theorem processLine_dimInv {first : Bool} {st st1 : LoadState}
    {line : List String}
    (h : processLine first st line = Except.ok st1) (hinv : DimInv st) :
    DimInv st1 := by
  cases line with
  | nil => simp [processLine] at h
  | cons word rest =>
    by_cases hfw : (first = true) ∧ word ≠ UNKNOWN_MARKER
    · rw [processLine, if_pos hfw] at h
      cases h
    · rw [processLine, if_neg hfw] at h
      by_cases hmem : pyLower word ∈ st.alreadyAdded
      · rw [if_pos hmem] at h
        cases h
        exact hinv
      · rw [if_neg hmem] at h
        cases hsz : st.embedding_size with
        | none =>
          rw [hsz] at h
          cases h
          constructor
          · intro hcontra
            cases hcontra
          · intro e he
            rw [hinv.1 hsz] at he
            simp only [List.nil_append, List.mem_singleton] at he
            rw [he]
        | some d =>
          rw [hsz] at h
          dsimp only at h
          by_cases hd : d = rest.length
          · rw [if_pos hd] at h
            cases h
            constructor
            · intro hcontra
              cases hcontra
            · intro e he
              dsimp only at he ⊢
              rcases List.mem_append.mp he with he1 | he1
              · rw [← hsz]
                exact hinv.2 e he1
              · rw [List.mem_singleton.mp he1, hd]
          · rw [if_neg hd] at h
            cases h

theorem loadLinesAux_dimInv {ls : List (List String)} {st st1 : LoadState}
    (h : loadLinesAux ls st = Except.ok st1) (hinv : DimInv st) :
    DimInv st1 := by
  induction ls generalizing st with
  | nil =>
    simp only [loadLinesAux] at h
    cases h
    exact hinv
  | cons l ls ih =>
    simp only [loadLinesAux] at h
    cases hp : processLine false st l with
    | error e =>
      rw [hp] at h
      cases h
    | ok st2 =>
      rw [hp] at h
      exact ih h (processLine_dimInv hp hinv)

theorem loadRaw_dimInv {ls : List (List String)} {st : LoadState}
    (h : loadRaw ls = Except.ok st) : DimInv st := by
  cases ls with
  | nil =>
    simp only [loadRaw] at h
    cases h
    exact ⟨fun _ => rfl, fun e he => absurd he (List.not_mem_nil e)⟩
  | cons l ls =>
    simp only [loadRaw] at h
    cases hp : processLine true initLoadState l with
    | error e =>
      rw [hp] at h
      cases h
    | ok st0 =>
      rw [hp] at h
      have hinit : DimInv initLoadState :=
        ⟨fun _ => rfl, fun e he => absurd he (List.not_mem_nil e)⟩
      exact loadLinesAux_dimInv h (processLine_dimInv hp hinit)

/-! ### Claims -/

/-- C1: For every constructed feature space (counted or pretrained) and every
possible input value, the lookup `index(value)` is a total integer-valued
function — it never raises.  A value present in the retained vocabulary is
mapped to its assigned index; any absent value silently resolves to the
space's default index, which for counted spaces built with fallback reserved
is the appended fallback slot `size() - 1`, and for pretrained spaces is
position `0`. -/
theorem index_total_with_silent_default :
    (∀ (feats : List String) (mc : Option Nat) (au : Bool) (v : String),
        (v ∈ (mkFeatureSpace feats mc au).retained →
          cindex (mkFeatureSpace feats mc au) v
            = (idxOf (mkFeatureSpace feats mc au).retained v : Int))
        ∧ (v ∉ (mkFeatureSpace feats mc au).retained →
          cindex (mkFeatureSpace feats mc au) v
            = (mkFeatureSpace feats mc au).default_index)
        ∧ (au = true →
          (mkFeatureSpace feats mc au).default_index
            = ((mkFeatureSpace feats mc au).size : Int) - 1))
    ∧ (∀ (lines : List (List String)) (sp : PretrainedSpace) (v : String),
        loadPretrained lines = Except.ok sp →
          (v ∈ sp.space → pindex sp v = (idxOf sp.space v : Int))
          ∧ (v ∉ sp.space → pindex sp v = 0)) := by
  constructor
  · intro feats mc au v
    refine ⟨fun h => cindex_of_mem h, fun h => cindex_of_not_mem h, ?_⟩
    intro hau
    subst hau
    rw [default_of_append_true, CountedSpace.size, space_of_append_true,
      List.length_append, List.length_singleton]
    push_cast
    omega
  · intro lines sp v _
    constructor
    · intro h
      rw [pindex, if_pos h]
    · intro h
      rw [pindex, if_neg h]

/-- Witness for C1: a concrete counted space with fallback and a concrete
loaded pretrained space, with every hypothesis discharged. -/
theorem index_total_with_silent_default_witness :
    (cindex (mkFeatureSpace ["a"] none true) "a"
        = (idxOf (mkFeatureSpace ["a"] none true).retained "a" : Int))
    ∧ (cindex (mkFeatureSpace ["a"] none true) "z"
        = (mkFeatureSpace ["a"] none true).default_index)
    ∧ ((mkFeatureSpace ["a"] none true).default_index
        = ((mkFeatureSpace ["a"] none true).size : Int) - 1)
    ∧ (pindex ⟨["*unknown*", "dog"], [["0.1", "0.2"], ["0.3", "0.4"]],
          some 2⟩ "cat" = 0) :=
  ⟨(index_total_with_silent_default.1 ["a"] none true "a").1 (by decide),
   (index_total_with_silent_default.1 ["a"] none true "z").2.1 (by decide),
   (index_total_with_silent_default.1 ["a"] none true "z").2.2 rfl,
   (index_total_with_silent_default.2
      [["*UNKNOWN*", "0.1", "0.2"], ["Dog", "0.3", "0.4"]]
      ⟨["*unknown*", "dog"], [["0.1", "0.2"], ["0.3", "0.4"]], some 2⟩
      "cat" rfl).2 (by decide)⟩

/-- C2: For every counted space constructed with fallback reserved,
`feature(index(v)) = v` for every value `v` retained at construction, and
`index(u) = size() - 1` for every value `u` not in the retained set. -/
theorem fallback_roundtrip_and_last_slot :
    ∀ (feats : List String) (mc : Option Nat) (v u : String),
      (v ∈ (mkFeatureSpace feats mc true).retained →
        (mkFeatureSpace feats mc true).feature
          (cindex (mkFeatureSpace feats mc true) v) = some v)
      ∧ (u ∉ (mkFeatureSpace feats mc true).retained →
        cindex (mkFeatureSpace feats mc true) u
          = ((mkFeatureSpace feats mc true).size : Int) - 1) := by
  intro feats mc v u
  constructor
  · exact feature_cindex_of_mem_true
  · intro h
    rw [cindex_of_not_mem h, default_of_append_true, CountedSpace.size,
      space_of_append_true, List.length_append, List.length_singleton]
    push_cast
    omega

/-- Witness for C2: the space counted from `["a"]` with fallback; `"a"` is
retained and round-trips, `"z"` is absent and maps to the last slot. -/
theorem fallback_roundtrip_and_last_slot_witness :
    (mkFeatureSpace ["a"] none true).feature
        (cindex (mkFeatureSpace ["a"] none true) "a") = some "a"
    ∧ cindex (mkFeatureSpace ["a"] none true) "z"
        = ((mkFeatureSpace ["a"] none true).size : Int) - 1 :=
  ⟨(fallback_roundtrip_and_last_slot ["a"] none "a" "z").1 (by decide),
   (fallback_roundtrip_and_last_slot ["a"] none "a" "z").2 (by decide)⟩

/-- C3: For every pretrained vocabulary space, `index(w) = 0` for every word
`w` absent from the loaded vocabulary; in particular, the file whose split
lines are `*UNKNOWN* 0.1 0.2` and `Dog 0.3 0.4` loads to the space with
vocabulary `["*unknown*", "dog"]`, `size() = 2`, `index("dog") = 1`,
`index("cat") = 0` and `embedding_size = 2`. -/
theorem pretrained_absent_resolves_to_zero :
    (∀ (lines : List (List String)) (sp : PretrainedSpace) (w : String),
        loadPretrained lines = Except.ok sp → w ∉ sp.space →
          pindex sp w = 0)
    ∧ loadPretrained [["*UNKNOWN*", "0.1", "0.2"], ["Dog", "0.3", "0.4"]]
        = Except.ok ⟨["*unknown*", "dog"], [["0.1", "0.2"], ["0.3", "0.4"]],
            some 2⟩
    ∧ (⟨["*unknown*", "dog"], [["0.1", "0.2"], ["0.3", "0.4"]], some 2⟩ :
        PretrainedSpace).size = 2
    ∧ pindex ⟨["*unknown*", "dog"], [["0.1", "0.2"], ["0.3", "0.4"]],
        some 2⟩ "dog" = 1
    ∧ pindex ⟨["*unknown*", "dog"], [["0.1", "0.2"], ["0.3", "0.4"]],
        some 2⟩ "cat" = 0
    ∧ (⟨["*unknown*", "dog"], [["0.1", "0.2"], ["0.3", "0.4"]], some 2⟩ :
        PretrainedSpace).embedding_size = some 2 := by
  refine ⟨?_, rfl, rfl, by decide, by decide, rfl⟩
  intro lines sp w _ h
  rw [pindex, if_neg h]

/-- Witness for C3: the load hypothesis and the absence hypothesis
discharged on the concrete two-line file. -/
theorem pretrained_absent_resolves_to_zero_witness :
    pindex ⟨["*unknown*", "dog"], [["0.1", "0.2"], ["0.3", "0.4"]],
      some 2⟩ "cat" = 0 :=
  pretrained_absent_resolves_to_zero.1
    [["*UNKNOWN*", "0.1", "0.2"], ["Dog", "0.3", "0.4"]]
    ⟨["*unknown*", "dog"], [["0.1", "0.2"], ["0.3", "0.4"]], some 2⟩
    "cat" rfl (by decide)

/-- C4: For every counted space, the retained vocabulary is exactly the set
of distinct extracted values whose occurrence count meets the minimum-count
threshold (all distinct values when the threshold is unset), and `size()`
equals the number of retained values plus one exactly when fallback is
reserved; with counts `{A:5, B:1, C:3}` and threshold `3` the retained
vocabulary is exactly `[A, C]` and `B` resolves to the default on lookup. -/
theorem retained_vocabulary_and_size :
    (∀ (feats : List String) (mc : Option Nat) (au : Bool) (v : String),
        (v ∈ (mkFeatureSpace feats mc au).retained ↔
          (v ∈ feats ∧ ∀ m, mc = some m → m ≤ feats.count v))
        ∧ (mkFeatureSpace feats mc au).size
            = (mkFeatureSpace feats mc au).retained.length
              + (if au then 1 else 0))
    ∧ (mkFeatureSpace ["A", "A", "A", "A", "A", "B", "C", "C", "C"]
        (some 3) true).retained = ["A", "C"]
    ∧ cindex (mkFeatureSpace ["A", "A", "A", "A", "A", "B", "C", "C", "C"]
          (some 3) true) "B"
        = (mkFeatureSpace ["A", "A", "A", "A", "A", "B", "C", "C", "C"]
            (some 3) true).default_index := by
  refine ⟨?_, by decide, by decide⟩
  intro feats mc au v
  refine ⟨mem_retained feats mc au v, ?_⟩
  cases au
  · rw [CountedSpace.size, space_of_append_false]
    simp
  · rw [CountedSpace.size, space_of_append_true, List.length_append,
      List.length_singleton]
    simp

/-- Witness for C4: membership of `"C"` established through the theorem's
equivalence, with the threshold hypothesis discharged concretely. -/
theorem retained_vocabulary_and_size_witness :
    "C" ∈ (mkFeatureSpace ["A", "A", "A", "A", "A", "B", "C", "C", "C"]
        (some 3) true).retained
    ∧ (mkFeatureSpace ["A", "A", "A", "A", "A", "B", "C", "C", "C"]
        (some 3) true).size
      = (mkFeatureSpace ["A", "A", "A", "A", "A", "B", "C", "C", "C"]
          (some 3) true).retained.length + (if true then 1 else 0) :=
  ⟨((retained_vocabulary_and_size.1
      ["A", "A", "A", "A", "A", "B", "C", "C", "C"] (some 3) true "C").1).mpr
      ⟨by decide, fun m hm => by cases hm; decide⟩,
   (retained_vocabulary_and_size.1
      ["A", "A", "A", "A", "A", "B", "C", "C", "C"] (some 3) true "C").2⟩

theorem loadPretrained_error_iff (lines : List (List String)) (e : LoadError) :
    loadPretrained lines = Except.error e ↔ loadRaw lines = Except.error e := by
  rw [loadPretrained]
  cases loadRaw lines <;> simp

theorem loadPretrained_ok_iff (lines : List (List String))
    (sp : PretrainedSpace) :
    loadPretrained lines = Except.ok sp ↔
      ∃ st, loadRaw lines = Except.ok st
        ∧ sp = ⟨st.space, st.embeddings, st.embedding_size⟩ := by
  rw [loadPretrained]
  cases loadRaw lines with
  | error e => simp
  | ok st =>
    simp only [Except.ok.injEq]
    constructor
    · intro h
      exact ⟨st, rfl, h.symm⟩
    · rintro ⟨st1, h1, h2⟩
      cases h1
      exact h2.symm

/-- C5: The pretrained loader fails with the format-violation condition if
and only if the file has a first line carrying a word and that word differs
from the unknown marker.  (A file whose first line has no fields fails
earlier with the `splits[0]` `IndexError`, not with the format violation;
any later line never triggers it.) -/
theorem format_violation_iff_first_word_not_marker :
    ∀ (lines : List (List String)),
      loadPretrained lines = Except.error LoadError.formatViolation ↔
        (∃ w rest ls, lines = (w :: rest) :: ls ∧ w ≠ UNKNOWN_MARKER) := by
  intro lines
  rw [loadPretrained_error_iff]
  constructor
  · intro h
    cases lines with
    | nil => simp [loadRaw] at h
    | cons l ls =>
      cases l with
      | nil => simp [loadRaw, loadLinesAux, processLine] at h
      | cons w rest =>
        by_cases hw : w = UNKNOWN_MARKER
        · exfalso
          subst hw
          simp only [loadRaw, processLine, ne_eq, not_true_eq_false,
            and_false, if_false, initLoadState, List.not_mem_nil,
            if_neg] at h
          exact loadLinesAux_ne_formatViolation _ _ h
        · exact ⟨w, rest, ls, rfl, hw⟩
  · rintro ⟨w, rest, ls, rfl, hw⟩
    simp [loadRaw, processLine, hw]

/-- C6 counterexample: the line `Dog 0.5` has vector length 1, different
from the first-seen dimensionality 2, yet the load succeeds, because the
line is a case-insensitive duplicate of `dog` and is skipped before the
dimensionality check. -/
theorem mismatched_duplicate_line_loads :
    loadPretrained
        [["*UNKNOWN*", "0.1", "0.2"], ["dog", "0.3", "0.4"], ["Dog", "0.5"]]
      = Except.ok ⟨["*unknown*", "dog"], [["0.1", "0.2"], ["0.3", "0.4"]],
          some 2⟩ :=
  rfl

/-- C6 (amended): the loader enforces a single dimensionality across all
*recorded* lines: on success every recorded vector's length equals the
space's `embedding_size`, and a line introducing a new (non-duplicate) word
with a differing vector length fails with the dimension-mismatch condition —
but a line whose lower-cased word is a duplicate of an earlier line is
skipped before the dimensionality check and cannot trigger it. -/
theorem dimensions_uniform_on_recorded_lines :
    (∀ (lines : List (List String)) (sp : PretrainedSpace),
        loadPretrained lines = Except.ok sp →
          ∀ e ∈ sp.embeddings, sp.embedding_size = some e.length)
    ∧ loadPretrained [["*UNKNOWN*", "0.1", "0.2"], ["cat", "0.5"]]
        = Except.error LoadError.dimensionMismatch := by
  refine ⟨?_, rfl⟩
  intro lines sp h e he
  rcases (loadPretrained_ok_iff lines sp).mp h with ⟨st, hst, rfl⟩
  exact (loadRaw_dimInv hst).2 e he

/-- Witness for C6: a one-line file loads with a recorded vector of length 1
and `embedding_size` 1. -/
theorem dimensions_uniform_on_recorded_lines_witness :
    (⟨["*unknown*"], [["0.1"]], some 1⟩ : PretrainedSpace).embedding_size
      = some (["0.1" ] : List String).length :=
  dimensions_uniform_on_recorded_lines.1 [["*UNKNOWN*", "0.1"]]
    ⟨["*unknown*"], [["0.1"]], some 1⟩ rfl ["0.1"] (by decide)

theorem pyGet_spec (l : List String) (i : Int) :
    (pyGet l i = none ↔ (i < -(l.length : Int) ∨ (l.length : Int) ≤ i))
    ∧ (0 ≤ i → i < (l.length : Int) → pyGet l i = l.get? i.toNat)
    ∧ (-(l.length : Int) ≤ i → i < 0 →
        pyGet l i = l.get? ((l.length : Int) + i).toNat) := by
  refine ⟨pyGet_eq_none_iff l i, ?_, fun h1 h2 => pyGet_neg l h1 h2⟩
  intro h0 _
  rw [pyGet, if_pos h0]

/-- C7 counterexample: on the space counted from `["a"]` with fallback
(`size = 2`), `feature(-1)` returns the last stored value instead of failing,
although `-1` lies outside `[0, size)`. -/
theorem feature_succeeds_at_negative_index :
    (mkFeatureSpace ["a"] none true).feature (-1) = some UNKNOWN_MARKER
    ∧ ¬ (0 ≤ (-1 : Int)) :=
  ⟨by decide, by decide⟩

/-- C7 (amended): for every constructed feature space (counted or
pretrained), `feature(i)` fails exactly when `i` lies outside
`[-size(), size())`; for `i` in `[0, size())` it returns the value stored at
position `i`, and for `i` in `[-size(), 0)` the value stored at position
`size() + i` (Python's negative indexing). -/
theorem feature_bounds_amended :
    (∀ (feats : List String) (mc : Option Nat) (au : Bool) (i : Int),
        ((mkFeatureSpace feats mc au).feature i = none ↔
          (i < -(((mkFeatureSpace feats mc au).size : Int))
            ∨ ((mkFeatureSpace feats mc au).size : Int) ≤ i))
        ∧ (0 ≤ i → i < ((mkFeatureSpace feats mc au).size : Int) →
            (mkFeatureSpace feats mc au).feature i
              = (mkFeatureSpace feats mc au).space.get? i.toNat)
        ∧ (-(((mkFeatureSpace feats mc au).size : Int)) ≤ i → i < 0 →
            (mkFeatureSpace feats mc au).feature i
              = (mkFeatureSpace feats mc au).space.get?
                  (((mkFeatureSpace feats mc au).size : Int) + i).toNat))
    ∧ (∀ (lines : List (List String)) (sp : PretrainedSpace) (i : Int),
        loadPretrained lines = Except.ok sp →
          ((sp.feature i = none ↔
            (i < -((sp.size : Int)) ∨ (sp.size : Int) ≤ i))
          ∧ (0 ≤ i → i < (sp.size : Int) →
              sp.feature i = sp.space.get? i.toNat)
          ∧ (-((sp.size : Int)) ≤ i → i < 0 →
              sp.feature i = sp.space.get? ((sp.size : Int) + i).toNat))) := by
  constructor
  · intro feats mc au i
    exact pyGet_spec (mkFeatureSpace feats mc au).space i
  · intro lines sp i _
    exact pyGet_spec sp.space i

/-- Witness for C7: the in-range, negative-in-range and pretrained cases of
the amended bounds at concrete inputs. -/
theorem feature_bounds_amended_witness :
    (mkFeatureSpace ["a"] none true).feature 0
        = (mkFeatureSpace ["a"] none true).space.get? (0 : Int).toNat
    ∧ (mkFeatureSpace ["a"] none true).feature (-2)
        = (mkFeatureSpace ["a"] none true).space.get?
            (((mkFeatureSpace ["a"] none true).size : Int) + (-2)).toNat
    ∧ (⟨["*unknown*"], [["0.1"]], some 1⟩ : PretrainedSpace).feature 0
        = (⟨["*unknown*"], [["0.1"]], some 1⟩ :
            PretrainedSpace).space.get? (0 : Int).toNat :=
  ⟨(feature_bounds_amended.1 ["a"] none true 0).2.1 (by decide) (by decide),
   (feature_bounds_amended.1 ["a"] none true (-2)).2.2 (by decide)
     (by decide),
   (feature_bounds_amended.2 [["*UNKNOWN*", "0.1"]]
      ⟨["*unknown*"], [["0.1"]], some 1⟩ 0 rfl).2.1 (by decide) (by decide)⟩

/-- C8: a line whose lower-cased word equals one already recorded is skipped
entirely: inserting such a line anywhere after the prefix of the file that
first recorded the word leaves the constructed space — its `size()`, every
assigned index and every vector — unchanged. -/
theorem duplicate_lines_ignored :
    ∀ (xs ys : List (List String)) (st : LoadState) (w : String)
      (v : List String),
      loadRaw xs = Except.ok st → pyLower w ∈ st.space →
      loadPretrained (xs ++ (w :: v) :: ys) = loadPretrained (xs ++ ys) := by
  intro xs ys st w v hload hmem
  have hadd : pyLower w ∈ st.alreadyAdded :=
    (loadRaw_addedInv hload (pyLower w)).mpr hmem
  cases xs with
  | nil =>
    exfalso
    simp only [loadRaw] at hload
    cases hload
    simp [initLoadState] at hmem
  | cons x xs1 =>
    suffices hsuf : loadRaw ((x :: xs1) ++ (w :: v) :: ys)
        = loadRaw ((x :: xs1) ++ ys) by
      rw [loadPretrained, loadPretrained, hsuf]
    simp only [List.cons_append, loadRaw] at hload ⊢
    cases hp : processLine true initLoadState x with
    | error e =>
      rw [hp] at hload
    | ok st0 =>
      rw [hp] at hload
      dsimp only at hload
      simp only [hp]
      simp only [loadLinesAux_append, hload, loadLinesAux,
        processLine_skip v hadd]

/-- Witness for C8: inserting the duplicate line `*unknown* 9` (even with a
mismatched vector length) after the first line does not change the result. -/
theorem duplicate_lines_ignored_witness :
    loadPretrained ([["*UNKNOWN*", "0.1", "0.2"]]
        ++ ("*unknown*" :: ["9"]) :: [["dog", "0.3", "0.4"]])
      = loadPretrained ([["*UNKNOWN*", "0.1", "0.2"]]
        ++ [["dog", "0.3", "0.4"]]) :=
  duplicate_lines_ignored [["*UNKNOWN*", "0.1", "0.2"]]
    [["dog", "0.3", "0.4"]]
    ⟨["*unknown*"], some 2, ["*unknown*"], [["0.1", "0.2"]]⟩
    "*unknown*" ["9"] rfl (by decide)

/-- C9 counterexample: with affix length `n = 0`, the token `"ab"` (an
ordinary token, not a boundary marker, of length ≥ 0) is returned whole by
the suffix transform — Python's `"ab"[-0:]` is `"ab"[0:]` — instead of its
last 0 characters, the empty string. -/
theorem suffix_zero_returns_whole_token :
    suffixExtract 0 "ab"
        ≠ String.mk (("ab" : String).data.drop
            (("ab" : String).data.length - 0))
    ∧ suffixExtract 0 "ab" = "ab"
    ∧ "ab" ≠ START_MARKER ∧ "ab" ≠ END_MARKER
    ∧ 0 ≤ ("ab" : String).data.length :=
  ⟨by decide, by decide, by decide, by decide, by decide⟩

/-- C9 (amended): the prefix (resp. suffix) transform with length `n` passes
the start and end boundary markers through unchanged; an ordinary token with
at least `n` characters maps to its first `n` characters under the prefix
transform and — provided `n ≥ 1` — to its last `n` characters under the
suffix transform (at `n = 0` the suffix transform returns the token whole,
since `token[-0:]` is the full slice); a shorter token maps to the
out-of-range marker.  With `n = 3`: `"quick" ↦ "qui"` / `"ick"`, and
`"ox" ↦` the out-of-range marker. -/
theorem affix_transforms_amended :
    (∀ (n : Nat) (token : String),
        ((token = START_MARKER ∨ token = END_MARKER) →
          prefixExtract n token = token ∧ suffixExtract n token = token)
        ∧ (token ≠ START_MARKER → token ≠ END_MARKER →
            ((n ≤ token.data.length →
                prefixExtract n token = String.mk (token.data.take n)
                ∧ (1 ≤ n → suffixExtract n token
                    = String.mk (token.data.drop (token.data.length - n))))
             ∧ (token.data.length < n →
                prefixExtract n token = OUT_OF_RANGE_MARKER
                ∧ suffixExtract n token = OUT_OF_RANGE_MARKER))))
    ∧ prefixExtract 3 "quick" = "qui"
    ∧ suffixExtract 3 "quick" = "ick"
    ∧ prefixExtract 3 "ox" = OUT_OF_RANGE_MARKER
    ∧ prefixExtract 3 START_MARKER = START_MARKER := by
  refine ⟨?_, by decide, by decide, by decide, by decide⟩
  intro n token
  constructor
  · intro hmark
    rw [prefixExtract, if_pos hmark, suffixExtract, if_pos hmark]
    exact ⟨rfl, rfl⟩
  · intro h1 h2
    have hne : ¬ (token = START_MARKER ∨ token = END_MARKER) := by
      rintro (h | h)
      · exact h1 h
      · exact h2 h
    constructor
    · intro hlen
      refine ⟨?_, ?_⟩
      · rw [prefixExtract, if_neg hne, if_pos hlen, pySliceTo]
      · intro hn
        rw [suffixExtract, if_neg hne, if_pos hlen, pySliceFromNeg,
          if_neg (by omega : ¬ n = 0)]
    · intro hlen
      rw [prefixExtract, if_neg hne, if_neg (by omega : ¬ n ≤ token.data.length),
        suffixExtract, if_neg hne, if_neg (by omega : ¬ n ≤ token.data.length)]
      exact ⟨rfl, rfl⟩

/-- Witness for C9: the marker pass-through, both in-range transforms at
`n = 3` on `"quick"`, and the out-of-range case on `"ox"`. -/
theorem affix_transforms_amended_witness :
    (prefixExtract 2 START_MARKER = START_MARKER
      ∧ suffixExtract 2 START_MARKER = START_MARKER)
    ∧ prefixExtract 3 "quick" = String.mk (("quick" : String).data.take 3)
    ∧ suffixExtract 3 "quick"
        = String.mk (("quick" : String).data.drop
            (("quick" : String).data.length - 3))
    ∧ (prefixExtract 3 "ox" = OUT_OF_RANGE_MARKER
      ∧ suffixExtract 3 "ox" = OUT_OF_RANGE_MARKER) :=
  ⟨(affix_transforms_amended.1 2 START_MARKER).1 (Or.inl rfl),
   (((affix_transforms_amended.1 3 "quick").2 (by decide) (by decide)).1
      (by decide)).1,
   (((affix_transforms_amended.1 3 "quick").2 (by decide) (by decide)).1
      (by decide)).2 (by decide),
   ((affix_transforms_amended.1 3 "ox").2 (by decide) (by decide)).2
      (by decide)⟩

/-- C10 counterexample: the strictly-closed supertag space built from a
corpus with no supertags retains nothing; `index` of an unseen value is `-1`
as claimed, but `feature(index(u))` is then `space[-1]` on the empty list,
which raises `IndexError` instead of returning a last retained value. -/
theorem closed_space_empty_lookup_raises :
    cindex (mkSupertagSpace [] none) "x" = -1
    ∧ (mkSupertagSpace [] none).feature
        (cindex (mkSupertagSpace [] none) "x") = none :=
  ⟨by decide, by decide⟩

/-- C10 (amended): for every strictly-closed counted space (fallback not
reserved, as for the supertag label space), `index(u) = -1` for every value
`u` outside the retained vocabulary, and `feature(index(u))` is `space[-1]`:
it returns the last retained feature value without raising whenever at least
one value is retained (and raises on an empty space). -/
theorem closed_space_default_and_last_feature :
    ∀ (feats : List String) (mc : Option Nat) (u : String),
      u ∉ (mkFeatureSpace feats mc false).retained →
      cindex (mkFeatureSpace feats mc false) u = -1
      ∧ (mkFeatureSpace feats mc false).feature
          (cindex (mkFeatureSpace feats mc false) u)
          = (mkFeatureSpace feats mc false).retained.getLast? := by
  intro feats mc u h
  have hc : cindex (mkFeatureSpace feats mc false) u = -1 := by
    rw [cindex_of_not_mem h, default_of_append_false]
  refine ⟨hc, ?_⟩
  rw [hc, CountedSpace.feature, space_of_append_false, pyGet_neg_one]

/-- Witness for C10: the closed space retaining `["NP", "S"]`; an unseen tag
maps to `-1` and `feature(-1)` is the last retained tag. -/
theorem closed_space_default_and_last_feature_witness :
    cindex (mkFeatureSpace ["NP", "S"] none false) "x" = -1
    ∧ (mkFeatureSpace ["NP", "S"] none false).feature
        (cindex (mkFeatureSpace ["NP", "S"] none false) "x")
        = (mkFeatureSpace ["NP", "S"] none false).retained.getLast? :=
  closed_space_default_and_last_feature ["NP", "S"] none "x" (by decide)
